import Mathlib

/-!
# Verification of the encrypted wallet-secret storage subsystem

A shallow embedding of `src/js/walletStorage.js` (the SecretStore of the
spec): base64 encoding/decoding (`btoa`/`atob` as used by `encrypt` and
`decrypt`), the AES-GCM/PBKDF2 encryption pipeline (platform crypto
primitives kept abstract, their contracts taken as hypotheses), and the
localStorage-backed wallet registry (`getStoredWallets`,
`addWalletToList`, `removeWalletFromList`, `storeMnemonic`,
`retrieveMnemonic`).

Bytes are modelled as `Nat` with explicit `< 256` bounds where they
matter. JS strings are modelled as Lean `String`.
-/

namespace WalletStorage

/-! ## Base64 (`btoa` / `atob`)

`encrypt` emits `btoa(String.fromCharCode(...combined))` and `decrypt`
begins with `Uint8Array.from(atob(encoded), c => c.charCodeAt(0))`.
`btoa` maps a byte sequence to base64 text; `atob` implements the WHATWG
forgiving-base64 decode (without the whitespace-stripping step, which no
input in this development contains): when the length is a multiple of 4
up to two trailing `=` are removed, a remaining length `≡ 1 (mod 4)` or
any character outside the alphabet is an error, and leftover bits of a
final partial group are discarded. -/

def b64Alphabet : List Char :=
  "ABCDEFGHIJKLMNOPQRSTUVWXYZabcdefghijklmnopqrstuvwxyz0123456789+/".data

def b64Char (n : Nat) : Char := b64Alphabet.getD n 'A'

def b64Index (c : Char) : Option Nat := b64Alphabet.findIdx? (fun x => x == c)

/-- Encode bytes three at a time into four base64 characters, padding the
final one- or two-byte group with `=`. -/
def btoaBytes : List Nat → List Char
  | [] => []
  | [a] => [b64Char (a / 4), b64Char (a % 4 * 16), '=', '=']
  | [a, b] => [b64Char (a / 4), b64Char (a % 4 * 16 + b / 16), b64Char (b % 16 * 4), '=']
  | a :: b :: c :: rest =>
      b64Char (a / 4) :: b64Char (a % 4 * 16 + b / 16) ::
      b64Char (b % 16 * 4 + c / 64) :: b64Char (c % 64) :: btoaBytes rest

def btoa (l : List Nat) : String := String.mk (btoaBytes l)

/-- Remove up to two `=` characters from the front of the (reversed)
input, i.e. from the end of the original (step 2 of forgiving-base64;
only applied when the length is a multiple of four). -/
def dropEq : List Char → List Char
  | [] => []
  | [c] => if c = '=' then [] else [c]
  | c1 :: c2 :: r =>
      if c1 = '=' then (if c2 = '=' then r else c2 :: r) else c1 :: c2 :: r

def stripPad (cs : List Char) : List Char := (dropEq cs.reverse).reverse

/-- Decode a padding-stripped character sequence four characters at a
time; a final group of two or three characters yields one or two bytes
with the leftover bits discarded, a final group of one character is an
error, and any character outside the alphabet is an error. -/
def atobCore : List Char → Option (List Nat)
  | [] => some []
  | [_] => none
  | [c1, c2] => do
      let x1 ← b64Index c1
      let x2 ← b64Index c2
      pure [x1 * 4 + x2 / 16]
  | [c1, c2, c3] => do
      let x1 ← b64Index c1
      let x2 ← b64Index c2
      let x3 ← b64Index c3
      pure [x1 * 4 + x2 / 16, x2 % 16 * 16 + x3 / 4]
  | c1 :: c2 :: c3 :: c4 :: rest => do
      let x1 ← b64Index c1
      let x2 ← b64Index c2
      let x3 ← b64Index c3
      let x4 ← b64Index c4
      let bs ← atobCore rest
      pure ((x1 * 4 + x2 / 16) :: (x2 % 16 * 16 + x3 / 4) :: (x3 % 4 * 64 + x4) :: bs)

def atob (s : String) : Option (List Nat) :=
  let cs := s.data
  if cs.length % 4 = 0 then atobCore (stripPad cs) else atobCore cs

/-! ### Base64 round-trip -/

theorem b64Index_b64Char {n : Nat} (h : n < 64) : b64Index (b64Char n) = some n := by
  interval_cases n <;> rfl

theorem b64Char_ne_eq {n : Nat} (h : n < 64) : b64Char n ≠ '=' := by
  interval_cases n <;> decide

theorem btoaBytes_length_mod4 (l : List Nat) : (btoaBytes l).length % 4 = 0 := by
  induction l using btoaBytes.induct with
  | case1 => rfl
  | case2 a => simp [btoaBytes]
  | case3 a b => simp [btoaBytes]
  | case4 a b c rest ih => simp [btoaBytes]; omega

theorem btoaBytes_len_cases (l : List Nat) :
    btoaBytes l = [] ∨ 4 ≤ (btoaBytes l).length := by
  induction l using btoaBytes.induct with
  | case1 => exact Or.inl rfl
  | case2 a => right; simp [btoaBytes]
  | case3 a b => right; simp [btoaBytes]
  | case4 a b c rest ih => right; simp [btoaBytes]

theorem dropEq_append (t g : List Char) (h : 2 ≤ t.length) :
    dropEq (t ++ g) = dropEq t ++ g := by
  match t with
  | [] => simp at h
  | [x] => simp at h
  | x :: y :: r =>
      by_cases hx : x = '=' <;> by_cases hy : y = '=' <;>
        simp [dropEq, hx, hy]

theorem stripPad_append (g t : List Char) (h : 2 ≤ t.length) :
    stripPad (g ++ t) = g ++ stripPad t := by
  have : (g ++ t).reverse = t.reverse ++ g.reverse := by simp
  rw [stripPad, this, dropEq_append _ _ (by simpa using h), stripPad]
  simp

theorem stripPad_no_eq (g : List Char) (h : ∀ c ∈ g, c ≠ '=') :
    stripPad g = g := by
  rw [stripPad]
  have : dropEq g.reverse = g.reverse := by
    match hg : g.reverse with
    | [] => rfl
    | [c] =>
        have : c ∈ g := by
          have : c ∈ g.reverse := by rw [hg]; simp
          simpa using this
        simp [dropEq, h c this]
    | c1 :: c2 :: r =>
        have : c1 ∈ g := by
          have : c1 ∈ g.reverse := by rw [hg]; simp
          simpa using this
        simp [dropEq, h c1 this]
  rw [this, List.reverse_reverse]

theorem b64_byte1 (a b : Nat) (ha : a < 256) (hb : b < 256) :
    a / 4 * 4 + (a % 4 * 16 + b / 16) / 16 = a := by
  have h16 : b / 16 < 16 := by omega
  rw [Nat.add_comm (a % 4 * 16) (b / 16),
    Nat.add_mul_div_right _ _ (by norm_num : (0:Nat) < 16),
    Nat.div_eq_of_lt h16]
  omega

theorem b64_byte2 (a b c : Nat) (hb : b < 256) (hc : c < 256) :
    (a % 4 * 16 + b / 16) % 16 * 16 + (b % 16 * 4 + c / 64) / 4 = b := by
  have h16 : b / 16 < 16 := by omega
  have h4 : c / 64 < 4 := by omega
  rw [Nat.mul_comm (a % 4) 16, Nat.mul_add_mod, Nat.mod_eq_of_lt h16,
    Nat.add_comm (b % 16 * 4) (c / 64),
    Nat.add_mul_div_right _ _ (by norm_num : (0:Nat) < 4),
    Nat.div_eq_of_lt h4]
  omega

theorem b64_mod16 (a b : Nat) (hb : b < 256) :
    (a % 4 * 16 + b / 16) % 16 = b / 16 := by
  have h16 : b / 16 < 16 := by omega
  rw [Nat.mul_comm (a % 4) 16, Nat.mul_add_mod]
  exact Nat.mod_eq_of_lt h16

theorem b64_mod4 (b c : Nat) (hc : c < 256) :
    (b % 16 * 4 + c / 64) % 4 = c / 64 := by
  have h4 : c / 64 < 4 := by omega
  rw [Nat.mul_comm (b % 16) 4, Nat.mul_add_mod]
  exact Nat.mod_eq_of_lt h4

theorem b64_byte3 (b c : Nat) (hc : c < 256) :
    (b % 16 * 4 + c / 64) % 4 * 64 + c % 64 = c := by
  have h4 : c / 64 < 4 := by omega
  rw [Nat.mul_comm (b % 16) 4, Nat.mul_add_mod, Nat.mod_eq_of_lt h4]
  omega

theorem atobCore_stripPad_btoaBytes (l : List Nat) (h : ∀ x ∈ l, x < 256) :
    atobCore (stripPad (btoaBytes l)) = some l := by
  induction l using btoaBytes.induct with
  | case1 => rfl
  | case2 a =>
      have ha : a < 256 := h a (by simp)
      have h1 : a / 4 < 64 := by omega
      have h2 : a % 4 * 16 < 64 := by omega
      have hs : stripPad [b64Char (a / 4), b64Char (a % 4 * 16), '=', '=']
          = [b64Char (a / 4), b64Char (a % 4 * 16)] := by
        simp [stripPad, dropEq]
      rw [show btoaBytes [a] = [b64Char (a / 4), b64Char (a % 4 * 16), '=', '=']
        from by simp [btoaBytes], hs]
      have e1 : a / 4 * 4 + a % 4 * 16 / 16 = a := by
        have := b64_byte1 a 0 ha (by omega)
        simpa using this
      simp [atobCore, b64Index_b64Char h1, b64Index_b64Char h2, e1]
      omega
  | case3 a b =>
      have ha : a < 256 := h a (by simp)
      have hb : b < 256 := h b (by simp)
      have h1 : a / 4 < 64 := by omega
      have h2 : a % 4 * 16 + b / 16 < 64 := by omega
      have h3 : b % 16 * 4 < 64 := by omega
      have hne : b64Char (b % 16 * 4) ≠ '=' := b64Char_ne_eq h3
      have hs : stripPad [b64Char (a / 4), b64Char (a % 4 * 16 + b / 16),
          b64Char (b % 16 * 4), '=']
          = [b64Char (a / 4), b64Char (a % 4 * 16 + b / 16), b64Char (b % 16 * 4)] := by
        simp [stripPad, dropEq, hne]
      rw [show btoaBytes [a, b] = [b64Char (a / 4), b64Char (a % 4 * 16 + b / 16),
          b64Char (b % 16 * 4), '='] from by simp [btoaBytes], hs]
      have e1 := b64_byte1 a b ha hb
      have e2 : (a % 4 * 16 + b / 16) % 16 * 16 + b % 16 * 4 / 4 = b := by
        have := b64_byte2 a b 0 hb (by omega)
        simpa using this
      simp [atobCore, b64Index_b64Char h1, b64Index_b64Char h2, b64Index_b64Char h3,
        e1, e2, b64_mod16 a b hb]
      omega
  | case4 a b c rest ih =>
      have ha : a < 256 := h a (by simp)
      have hb : b < 256 := h b (by simp)
      have hc : c < 256 := h c (by simp)
      have hrest : ∀ x ∈ rest, x < 256 := fun x hx => h x (by simp [hx])
      have ih' := ih hrest
      have h1 : a / 4 < 64 := by omega
      have h2 : a % 4 * 16 + b / 16 < 64 := by omega
      have h3 : b % 16 * 4 + c / 64 < 64 := by omega
      have h4 : c % 64 < 64 := by omega
      have hsplit : btoaBytes (a :: b :: c :: rest)
          = [b64Char (a / 4), b64Char (a % 4 * 16 + b / 16),
             b64Char (b % 16 * 4 + c / 64), b64Char (c % 64)]
            ++ btoaBytes rest := by simp [btoaBytes]
      rcases btoaBytes_len_cases rest with hz | hlen
      · -- the tail encodes to nothing, so `rest = []` and the final group
        -- is the four characters of `a, b, c` with no padding
        have hrest_nil : rest = [] := by
          rw [hz] at ih'
          simpa [stripPad, dropEq, atobCore] using ih'.symm
        subst hrest_nil
        rw [hz, List.append_nil] at hsplit
        have hnopad : ∀ ch ∈ [b64Char (a / 4), b64Char (a % 4 * 16 + b / 16),
            b64Char (b % 16 * 4 + c / 64), b64Char (c % 64)], ch ≠ '=' := by
          intro ch hch
          simp only [List.mem_cons, List.not_mem_nil, or_false] at hch
          rcases hch with rfl | rfl | rfl | rfl
          · exact b64Char_ne_eq h1
          · exact b64Char_ne_eq h2
          · exact b64Char_ne_eq h3
          · exact b64Char_ne_eq h4
        rw [hsplit, stripPad_no_eq _ hnopad]
        simp [atobCore, b64Index_b64Char h1, b64Index_b64Char h2,
          b64Index_b64Char h3, b64Index_b64Char h4,
          b64_byte1 a b ha hb, b64_byte2 a b c hb hc, b64_byte3 b c hc]
      · -- the tail is a non-empty multiple of four characters, so the
        -- padding lives inside it and the head group decodes in place
        rw [hsplit, stripPad_append _ _ (by omega)]
        simp [atobCore, b64Index_b64Char h1, b64Index_b64Char h2,
          b64Index_b64Char h3, b64Index_b64Char h4, ih',
          b64_byte1 a b ha hb, b64_byte2 a b c hb hc, b64_byte3 b c hc]

/-- `atob` inverts `btoa` on every byte sequence. -/
theorem atob_btoa (l : List Nat) (h : ∀ x ∈ l, x < 256) :
    atob (btoa l) = some l := by
  rw [atob, btoa]
  simp only [String.data]
  rw [if_pos (btoaBytes_length_mod4 l)]
  exact atobCore_stripPad_btoaBytes l h

/-! ## Crypto constants and the encryption pipeline

The constants of `walletStorage.js`. `PBKDF2_ITERATIONS` and
`KEY_LENGTH` are parameters of the opaque platform key derivation and
play no further role in the byte-level layout. -/

def SALT_LENGTH : Nat := 16
def IV_LENGTH : Nat := 12

/-- The platform primitives `walletStorage.js` calls but does not
implement: `TextEncoder`/`TextDecoder` (UTF-8), PBKDF2 key derivation
(`deriveKey`) and AES-GCM (`crypto.subtle.encrypt`/`decrypt`). Keys and
byte buffers are byte lists; AES-GCM decryption is fallible (tag
verification). Their contracts enter the theorems as hypotheses. -/
structure CryptoPrims where
  utf8Encode : String → List Nat
  utf8Decode : List Nat → String
  deriveKey : String → List Nat → List Nat
  aeadEncrypt : List Nat → List Nat → List Nat → List Nat
  aeadDecrypt : List Nat → List Nat → List Nat → Option (List Nat)

/-- The failure modes of `decrypt`: the `atob` call throws on malformed
base64 (`decodeError`), and `crypto.subtle.decrypt` rejects on AEAD tag
mismatch (`aeadError`). -/
inductive DecryptError where
  | decodeError
  | aeadError
deriving DecidableEq, Repr

/-- `encrypt(plaintext, password)` of `walletStorage.js`. The random
`salt` and `iv` produced by `crypto.getRandomValues` are passed in as
parameters (the source draws 16 and 12 fresh random bytes). Encodes the
plaintext as UTF-8, derives the key, AEAD-encrypts, concatenates
`salt || iv || ciphertext`, and base64-encodes the result. -/
def encrypt (P : CryptoPrims) (plaintext password : String)
    (salt iv : List Nat) : String :=
  let plaintextBuffer := P.utf8Encode plaintext
  let key := P.deriveKey password salt
  let ciphertext := P.aeadEncrypt key iv plaintextBuffer
  btoa (salt ++ iv ++ ciphertext)

/-- `decrypt(encoded, password)` of `walletStorage.js`. Base64-decodes
(this is the only step that can fail before key derivation; there is no
length guard), slices off `salt = combined.slice(0, 16)`,
`iv = combined.slice(16, 28)`, `ciphertext = combined.slice(28)`,
derives the key from the extracted salt, AEAD-decrypts, and decodes the
plaintext bytes as UTF-8 (`TextDecoder.decode`, which never throws). -/
def decrypt (P : CryptoPrims) (encoded password : String) :
    Except DecryptError String :=
  match atob encoded with
  | none => Except.error DecryptError.decodeError
  | some combined =>
      let salt := combined.take SALT_LENGTH
      let iv := (combined.drop SALT_LENGTH).take IV_LENGTH
      let ciphertext := combined.drop (SALT_LENGTH + IV_LENGTH)
      let key := P.deriveKey password salt
      match P.aeadDecrypt key iv ciphertext with
      | none => Except.error DecryptError.aeadError
      | some plaintextBuffer => Except.ok (P.utf8Decode plaintextBuffer)

/-- A concrete, fully computable instantiation of the platform
primitives, used to evaluate the pipeline at explicit inputs: code
points as the byte encoding of a string, and a key-tagging cipher whose
decryption verifies the tag and rejects a mismatched key. It satisfies
the pointwise contracts the theorems assume wherever the witnesses
invoke them. -/
def concretePrims : CryptoPrims where
  utf8Encode s := s.data.map Char.toNat
  utf8Decode l := String.mk (l.map Char.ofNat)
  deriveKey password _salt := password.data.map Char.toNat
  aeadEncrypt key _iv pt := key ++ pt
  aeadDecrypt key _iv ct :=
    if ct.take key.length = key then some (ct.drop key.length) else none

/-- Slicing recomposition: with a 16-byte salt and 12-byte IV, the three
slices `decrypt` takes of `salt ++ iv ++ ct` are `salt`, `iv`, `ct`. -/
theorem slices_of_combined (salt iv ct : List Nat)
    (hsalt : salt.length = SALT_LENGTH) (hiv : iv.length = IV_LENGTH) :
    (salt ++ iv ++ ct).take SALT_LENGTH = salt
    ∧ ((salt ++ iv ++ ct).drop SALT_LENGTH).take IV_LENGTH = iv
    ∧ (salt ++ iv ++ ct).drop (SALT_LENGTH + IV_LENGTH) = ct := by
  have hdrop : (salt ++ iv ++ ct).drop SALT_LENGTH = iv ++ ct := by
    rw [List.append_assoc, List.drop_left' hsalt]
  refine ⟨?_, ?_, ?_⟩
  · rw [List.append_assoc, List.take_left' hsalt]
  · rw [hdrop, List.take_left' hiv]
  · have hlen : (salt ++ iv).length = SALT_LENGTH + IV_LENGTH := by
      rw [List.length_append, hsalt, hiv]
    rw [List.drop_left' hlen]

/-! ## Claims C1 - C3: the encryption pipeline -/

/-- C1: for every plaintext string `m` (including the empty string) and
every password string `p`, decrypting the result of `encrypt(m, p)` with
the same password returns exactly `m`. The fresh random salt and IV
drawn by `crypto.getRandomValues` enter as parameters with the byte
lengths and ranges that call guarantees; `haead` and `hutf8` are the
functional contracts of the platform AES-GCM (same key and IV: decrypt
inverts encrypt) and UTF-8 codec at the point used. -/
theorem C1_decrypt_encrypt_roundtrip (P : CryptoPrims) (m password : String)
    (salt iv : List Nat)
    (hsalt : salt.length = SALT_LENGTH) (hiv : iv.length = IV_LENGTH)
    (hsb : ∀ x ∈ salt, x < 256) (hvb : ∀ x ∈ iv, x < 256)
    (hcb : ∀ x ∈ P.aeadEncrypt (P.deriveKey password salt) iv (P.utf8Encode m), x < 256)
    (haead : P.aeadDecrypt (P.deriveKey password salt) iv
        (P.aeadEncrypt (P.deriveKey password salt) iv (P.utf8Encode m))
        = some (P.utf8Encode m))
    (hutf8 : P.utf8Decode (P.utf8Encode m) = m) :
    decrypt P (encrypt P m password salt iv) password = Except.ok m := by
  have hbytes : ∀ x ∈ salt ++ iv ++
      P.aeadEncrypt (P.deriveKey password salt) iv (P.utf8Encode m), x < 256 := by
    intro x hx
    rcases List.mem_append.1 hx with hx | hx
    · rcases List.mem_append.1 hx with hx | hx
      · exact hsb x hx
      · exact hvb x hx
    · exact hcb x hx
  obtain ⟨h1, h2, h3⟩ := slices_of_combined salt iv
    (P.aeadEncrypt (P.deriveKey password salt) iv (P.utf8Encode m)) hsalt hiv
  simp only [encrypt, decrypt, atob_btoa _ hbytes, h1, h2, h3, haead, hutf8]

/-- Witness for C1 at a concrete plaintext, password, salt and IV. -/
theorem C1_decrypt_encrypt_roundtrip_witness :
    decrypt concretePrims
      (encrypt concretePrims "kaspa wallet" "pw" (List.replicate 16 0) (List.replicate 12 1))
      "pw" = Except.ok "kaspa wallet" :=
  C1_decrypt_encrypt_roundtrip concretePrims "kaspa wallet" "pw"
    (List.replicate 16 0) (List.replicate 12 1)
    (by decide) (by decide) (by decide) (by decide) (by decide) (by decide) (by decide)

/-- C3: for distinct passwords, decrypting `encrypt(m, p1)` with `p2`
fails with an error and never yields a plaintext. `hreject` is the
AES-GCM authentication contract at the point used: decryption under the
key derived from the wrong password rejects (tag mismatch). -/
theorem C3_wrong_password_rejected (P : CryptoPrims) (m p1 p2 : String)
    (salt iv : List Nat) (hne : p1 ≠ p2)
    (hsalt : salt.length = SALT_LENGTH) (hiv : iv.length = IV_LENGTH)
    (hsb : ∀ x ∈ salt, x < 256) (hvb : ∀ x ∈ iv, x < 256)
    (hcb : ∀ x ∈ P.aeadEncrypt (P.deriveKey p1 salt) iv (P.utf8Encode m), x < 256)
    (hreject : P.aeadDecrypt (P.deriveKey p2 salt) iv
        (P.aeadEncrypt (P.deriveKey p1 salt) iv (P.utf8Encode m)) = none) :
    decrypt P (encrypt P m p1 salt iv) p2 = Except.error DecryptError.aeadError := by
  have hbytes : ∀ x ∈ salt ++ iv ++
      P.aeadEncrypt (P.deriveKey p1 salt) iv (P.utf8Encode m), x < 256 := by
    intro x hx
    rcases List.mem_append.1 hx with hx | hx
    · rcases List.mem_append.1 hx with hx | hx
      · exact hsb x hx
      · exact hvb x hx
    · exact hcb x hx
  obtain ⟨h1, h2, h3⟩ := slices_of_combined salt iv
    (P.aeadEncrypt (P.deriveKey p1 salt) iv (P.utf8Encode m)) hsalt hiv
  simp only [encrypt, decrypt, atob_btoa _ hbytes, h1, h2, h3, hreject]

/-- Witness for C3 at concrete distinct passwords. -/
theorem C3_wrong_password_rejected_witness :
    decrypt concretePrims
      (encrypt concretePrims "secret phrase" "pw" (List.replicate 16 2) (List.replicate 12 3))
      "qw" = Except.error DecryptError.aeadError :=
  C3_wrong_password_rejected concretePrims "secret phrase" "pw" "qw"
    (List.replicate 16 2) (List.replicate 12 3)
    (by decide) (by decide) (by decide) (by decide) (by decide) (by decide) (by decide)

/-- C2 as stated is false on the code: `decrypt` has no length guard.
The empty string is well-formed base64 decoding to 0 bytes (fewer than
the 28-byte salt-plus-IV minimum), yet `decrypt` does not fail with a
decode error: it proceeds past base64 decoding to key derivation and the
AEAD attempt, and the failure it reports is the AEAD one. -/
theorem C2_counterexample_no_length_guard :
    atob "" = some [] ∧ SALT_LENGTH + IV_LENGTH = 28
    ∧ decrypt concretePrims "" "pw" = Except.error DecryptError.aeadError
    ∧ decrypt concretePrims "" "pw" ≠ Except.error DecryptError.decodeError := by
  refine ⟨rfl, rfl, rfl, fun h => ?_⟩
  rw [show decrypt concretePrims "" "pw" = Except.error DecryptError.aeadError
    from rfl] at h
  exact absurd (Except.error.inj h) (by decide)

/-- C2 amended: `decrypt` fails with a decode error exactly on malformed
base64 (`atob` throwing), before any key derivation; a blob whose
decoded length is smaller than 28 bytes is NOT rejected early — `decrypt`
carries on with the truncated salt and IV, attempts key derivation and
AEAD decryption, and when the AEAD layer rejects, the error is the AEAD
error, not a decode error. -/
theorem C2_decode_fail_and_no_guard (P : CryptoPrims) (encoded password : String) :
    (atob encoded = none →
      decrypt P encoded password = Except.error DecryptError.decodeError)
    ∧ (∀ combined, atob encoded = some combined →
        P.aeadDecrypt (P.deriveKey password (combined.take SALT_LENGTH))
            ((combined.drop SALT_LENGTH).take IV_LENGTH)
            (combined.drop (SALT_LENGTH + IV_LENGTH)) = none →
        decrypt P encoded password = Except.error DecryptError.aeadError) := by
  constructor
  · intro h
    simp [decrypt, h]
  · intro combined h hrej
    simp [decrypt, h, hrej]

/-- Witness for the amended C2: `"A"` is malformed base64 (length 1 mod
4) and yields the decode error; the empty blob decodes to 0 bytes and
yields the AEAD error. -/
theorem C2_decode_fail_and_no_guard_witness :
    decrypt concretePrims "A" "pw" = Except.error DecryptError.decodeError
    ∧ decrypt concretePrims "" "xy" = Except.error DecryptError.aeadError := by
  constructor
  · exact (C2_decode_fail_and_no_guard concretePrims "A" "pw").1 (by decide)
  · exact (C2_decode_fail_and_no_guard concretePrims "" "xy").2 [] (by decide) (by decide)

/-! ## localStorage and the wallet registry

`localStorage` is a string-keyed map; the model keeps insertion order as
an association list (`setItem` overwrites in place or appends). The
registry is persisted under `WALLET_LIST_KEY` as `JSON.stringify` of the
record array and read back with `JSON.parse` inside `try/catch`; the
model stores the parsed form directly (`StoredVal.reg`), and a value on
which `JSON.parse` throws is `StoredVal.str`. Mnemonic blobs are the
base64 strings `encrypt` returns, stored as `StoredVal.str`. -/

/-- One registry entry, as built by `addWalletToList`. -/
structure WalletRecord where
  filename : String
  network : String
  createdAt : String
  lastUsed : String
  hasMnemonic : Bool
deriving DecidableEq, Repr

inductive StoredVal where
  | str (s : String)
  | reg (records : List WalletRecord)
deriving DecidableEq, Repr

def Storage : Type := List (String × StoredVal)

def getItem : Storage → String → Option StoredVal
  | [], _ => none
  | (k, v) :: rest, key => if k = key then some v else getItem rest key

def setItem : Storage → String → StoredVal → Storage
  | [], key, v => [(key, v)]
  | (k, w) :: rest, key, v =>
      if k = key then (key, v) :: rest else (k, w) :: setItem rest key v

def removeItem : Storage → String → Storage
  | [], _ => []
  | (k, v) :: rest, key =>
      if k = key then removeItem rest key else (k, v) :: removeItem rest key

def WALLET_LIST_KEY : String := "kaspa_wallets"

/-- The key of the encrypted blob for `filename`: the source constant
`MNEMONIC_PREFIX = 'kaspa_mnemonic_'` concatenated with the filename. -/
def MNEMONIC_KEY (filename : String) : String := "kaspa_mnemonic_" ++ filename

/-- `getStoredWallets()`: reads the registry key; no data or a value on
which `JSON.parse` throws (the `catch`) gives `[]`, otherwise the parsed
records. -/
def getStoredWallets (st : Storage) : List WalletRecord :=
  match getItem st WALLET_LIST_KEY with
  | none => []
  | some (StoredVal.str _) => []
  | some (StoredVal.reg ws) => ws

/-- `wallets.find(w => w.filename === filename)` followed by in-place
mutation of the found record: only the first match is updated. -/
def updateFirst (ws : List WalletRecord) (filename : String)
    (g : WalletRecord → WalletRecord) : List WalletRecord :=
  match ws with
  | [] => []
  | w :: rest =>
      if w.filename = filename then g w :: rest
      else w :: updateFirst rest filename g

/-- `addWalletToList(filename, network, hasMnemonic = false)`. The two
timestamps `t1, t2` are the results of the two `new Date().toISOString()`
call sites in source order: the existing-record branch performs one call
(`t1`, stored in `lastUsed`); the insert branch performs two (`t1` into
`createdAt`, then `t2` into `lastUsed`). `hasMnemonic` is only ever
upgraded to `true`, never downgraded. -/
def addWalletToList (st : Storage) (filename network : String)
    (hasMnemonic : Bool) (t1 t2 : String) : Storage :=
  let wallets := getStoredWallets st
  if (wallets.find? (fun w => w.filename == filename)).isSome then
    setItem st WALLET_LIST_KEY (StoredVal.reg (updateFirst wallets filename
      (fun (w : WalletRecord) =>
        { w with
          network := network
          lastUsed := t1
          hasMnemonic := if hasMnemonic then true else w.hasMnemonic })))
  else
    setItem st WALLET_LIST_KEY (StoredVal.reg (wallets ++
      [{ filename := filename, network := network, createdAt := t1,
         lastUsed := t2, hasMnemonic := hasMnemonic }]))

/-- `removeWalletFromList(filename)`: filters the record out of the
registry, writes the registry back, and removes the blob key. -/
def removeWalletFromList (st : Storage) (filename : String) : Storage :=
  let wallets := getStoredWallets st
  let filtered := wallets.filter (fun w => w.filename != filename)
  removeItem (setItem st WALLET_LIST_KEY (StoredVal.reg filtered))
    (MNEMONIC_KEY filename)

/-- `storeMnemonic(filename, mnemonic, password)`: encrypts (salt and IV
are the fresh random bytes of that call), stores the blob, then sets
`hasMnemonic = true` on the matching registry record; when no record
matches, the registry is not written at all. -/
def storeMnemonic (P : CryptoPrims) (st : Storage)
    (filename mnemonic password : String) (salt iv : List Nat) : Storage :=
  let encrypted := encrypt P mnemonic password salt iv
  let st1 := setItem st (MNEMONIC_KEY filename) (StoredVal.str encrypted)
  let wallets := getStoredWallets st1
  if (wallets.find? (fun w => w.filename == filename)).isSome then
    setItem st1 WALLET_LIST_KEY (StoredVal.reg (updateFirst wallets filename
      (fun (w : WalletRecord) => { w with hasMnemonic := true })))
  else st1

/-- `retrieveMnemonic(filename, password)`: absent key or a falsy value
(the empty string) gives `null`; otherwise the blob is decrypted inside
`try/catch`, any failure giving `null`. A `StoredVal.reg` under a blob
key would be serialized registry text, which starts with `[` — not a
base64 character — so its decryption throws and is caught: `null`. -/
def retrieveMnemonic (P : CryptoPrims) (st : Storage)
    (filename password : String) : Option String :=
  match getItem st (MNEMONIC_KEY filename) with
  | none => none
  | some (StoredVal.reg _) => none
  | some (StoredVal.str s) =>
      if s = "" then none
      else
        match decrypt P s password with
        | Except.error _ => none
        | Except.ok m => some m

/-! ### Storage lemmas -/

theorem getItem_setItem_self (st : Storage) (k : String) (v : StoredVal) :
    getItem (setItem st k v) k = some v := by
  induction st with
  | nil => simp [setItem, getItem]
  | cons e rest ih =>
      obtain ⟨k', v'⟩ := e
      by_cases hk : k' = k
      · simp [setItem, hk, getItem]
      · simp [setItem, hk, getItem, ih]

theorem getItem_setItem_ne (st : Storage) (k q : String) (v : StoredVal)
    (h : q ≠ k) : getItem (setItem st k v) q = getItem st q := by
  induction st with
  | nil => simp [setItem, getItem, Ne.symm h]
  | cons e rest ih =>
      obtain ⟨a, b⟩ := e
      by_cases hk : a = k
      · subst hk
        simp [setItem, getItem, Ne.symm h]
      · simp [setItem, hk, getItem, ih]

theorem getItem_removeItem_self (st : Storage) (k : String) :
    getItem (removeItem st k) k = none := by
  induction st with
  | nil => rfl
  | cons e rest ih =>
      obtain ⟨a, b⟩ := e
      by_cases hk : a = k
      · simpa [removeItem, hk] using ih
      · simpa [removeItem, hk, getItem] using ih

theorem getItem_removeItem_ne (st : Storage) (k q : String) (h : q ≠ k) :
    getItem (removeItem st k) q = getItem st q := by
  induction st with
  | nil => rfl
  | cons e rest ih =>
      obtain ⟨a, b⟩ := e
      by_cases hk : a = k
      · subst hk
        simpa [removeItem, getItem, Ne.symm h] using ih
      · simp [removeItem, hk, getItem, ih]

theorem setItem_of_getItem (st : Storage) (k : String) (v : StoredVal)
    (h : getItem st k = some v) : setItem st k v = st := by
  induction st with
  | nil => simp [getItem] at h
  | cons e rest ih =>
      obtain ⟨a, b⟩ := e
      by_cases hk : a = k
      · subst hk
        rw [getItem, if_pos rfl] at h
        cases h
        simp [setItem]
      · rw [getItem, if_neg hk] at h
        simp [setItem, hk, ih h]

theorem removeItem_idem (st : Storage) (k : String) :
    removeItem (removeItem st k) k = removeItem st k := by
  induction st with
  | nil => rfl
  | cons e rest ih =>
      obtain ⟨a, b⟩ := e
      by_cases hk : a = k
      · simp [removeItem, hk, ih]
      · simp [removeItem, hk, ih]

theorem wallet_key_ne_mnemonic_key (f : String) :
    WALLET_LIST_KEY ≠ MNEMONIC_KEY f := by
  intro h
  have hlen := congrArg String.length h
  rw [WALLET_LIST_KEY, MNEMONIC_KEY, String.length_append] at hlen
  have h1 : ("kaspa_wallets" : String).length = 13 := rfl
  have h2 : ("kaspa_mnemonic_" : String).length = 15 := rfl
  omega

theorem getStoredWallets_setItem_reg (st : Storage) (ws : List WalletRecord) :
    getStoredWallets (setItem st WALLET_LIST_KEY (StoredVal.reg ws)) = ws := by
  rw [getStoredWallets, getItem_setItem_self]

theorem getStoredWallets_setItem_blob (st : Storage) (f : String) (v : StoredVal) :
    getStoredWallets (setItem st (MNEMONIC_KEY f) v) = getStoredWallets st := by
  rw [getStoredWallets, getStoredWallets,
    getItem_setItem_ne _ _ _ _ (wallet_key_ne_mnemonic_key f)]

theorem getStoredWallets_removeItem_blob (st : Storage) (f : String) :
    getStoredWallets (removeItem st (MNEMONIC_KEY f)) = getStoredWallets st := by
  rw [getStoredWallets, getStoredWallets,
    getItem_removeItem_ne _ _ _ (wallet_key_ne_mnemonic_key f)]

/-! ### updateFirst lemmas -/

theorem updateFirst_of_find_none (ws : List WalletRecord) (f : String)
    (g : WalletRecord → WalletRecord)
    (h : ws.find? (fun w => w.filename == f) = none) :
    updateFirst ws f g = ws := by
  induction ws with
  | nil => rfl
  | cons w rest ih =>
      by_cases hw : w.filename = f
      · exfalso
        rw [List.find?_cons_of_pos _ (by simp [hw])] at h
        exact Option.noConfusion h
      · rw [List.find?_cons_of_neg _ (by simp [hw])] at h
        simp only [updateFirst, if_neg hw, ih h]

theorem updateFirst_find (ws : List WalletRecord) (f : String)
    (g : WalletRecord → WalletRecord)
    (hg : ∀ w, (g w).filename = w.filename) :
    (updateFirst ws f g).find? (fun w => w.filename == f)
      = (ws.find? (fun w => w.filename == f)).map g := by
  induction ws with
  | nil => rfl
  | cons w rest ih =>
      by_cases hw : w.filename = f
      · simp only [updateFirst, if_pos hw]
        rw [List.find?_cons_of_pos _ (by simp [hg, hw]),
          List.find?_cons_of_pos _ (by simp [hw])]
        rfl
      · simp only [updateFirst, if_neg hw]
        rw [List.find?_cons_of_neg _ (by simp [hg, hw]),
          List.find?_cons_of_neg _ (by simp [hw]), ih]

theorem updateFirst_length (ws : List WalletRecord) (f : String)
    (g : WalletRecord → WalletRecord) :
    (updateFirst ws f g).length = ws.length := by
  induction ws with
  | nil => rfl
  | cons w rest ih =>
      by_cases hw : w.filename = f
      · simp [updateFirst, hw]
      · simp [updateFirst, hw, ih]

theorem updateFirst_get_ne (ws : List WalletRecord) (f : String)
    (g : WalletRecord → WalletRecord) (j : Nat)
    (hj : j ≠ ws.findIdx (fun w => w.filename == f)) :
    (updateFirst ws f g).get? j = ws.get? j := by
  induction ws generalizing j with
  | nil => rfl
  | cons w rest ih =>
      rw [List.findIdx_cons] at hj
      by_cases hw : w.filename = f
      · rw [show (w.filename == f) = true from by simp [hw]] at hj
        simp only [cond_true] at hj
        simp only [updateFirst, if_pos hw]
        cases j with
        | zero => exact absurd rfl hj
        | succ n => simp
      · rw [show (w.filename == f) = false from by simp [hw]] at hj
        simp only [cond_false] at hj
        simp only [updateFirst, if_neg hw]
        cases j with
        | zero => simp
        | succ n =>
            simp only [List.get?_cons_succ]
            exact ih n (by omega)

theorem updateFirst_get_idx (ws : List WalletRecord) (f : String)
    (g : WalletRecord → WalletRecord) :
    (updateFirst ws f g).get? (ws.findIdx (fun w => w.filename == f))
      = (ws.get? (ws.findIdx (fun w => w.filename == f))).map g := by
  induction ws with
  | nil => rfl
  | cons w rest ih =>
      rw [List.findIdx_cons]
      by_cases hw : w.filename = f
      · rw [show (w.filename == f) = true from by simp [hw]]
        simp only [cond_true, updateFirst, if_pos hw]
        rfl
      · rw [show (w.filename == f) = false from by simp [hw]]
        simp only [cond_false, updateFirst, if_neg hw, List.get?_cons_succ]
        exact ih

/-! ## Claims C4 - C10: the registry and mnemonic storage -/

/-- C4: `retrieveMnemonic` returns the absent value whenever no blob is
stored under the mnemonic key (including the falsy empty string) or
decryption of the stored blob fails for any reason; being a total
function into `Option`, it never raises. The hypothesis enumerates
exactly those situations: any stored blob string is empty or fails to
decrypt (a stored registry value under the key is never valid base64 and
is covered unconditionally). -/
theorem C4_retrieveMnemonic_absent (P : CryptoPrims) (st : Storage)
    (filename password : String)
    (h : ∀ s, getItem st (MNEMONIC_KEY filename) = some (StoredVal.str s) →
        s = "" ∨ ∃ e, decrypt P s password = Except.error e) :
    retrieveMnemonic P st filename password = none := by
  cases hg : getItem st (MNEMONIC_KEY filename) with
  | none => simp [retrieveMnemonic, hg]
  | some v =>
      cases v with
      | reg rs => simp [retrieveMnemonic, hg]
      | str s =>
          rcases h s hg with rfl | ⟨e, he⟩
          · simp [retrieveMnemonic, hg]
          · by_cases hs : s = ""
            · simp [retrieveMnemonic, hg, hs]
            · simp [retrieveMnemonic, hg, hs, he]

/-- Witness for C4: a stored blob that is not valid base64 decrypts to
an error, so retrieval is absent. -/
theorem C4_retrieveMnemonic_absent_witness :
    retrieveMnemonic concretePrims
      [(MNEMONIC_KEY "w1", StoredVal.str "!!bad!!")] "w1" "pw" = none :=
  C4_retrieveMnemonic_absent concretePrims
    [(MNEMONIC_KEY "w1", StoredVal.str "!!bad!!")] "w1" "pw"
    (fun s hs => by
      rw [show getItem [(MNEMONIC_KEY "w1", StoredVal.str "!!bad!!")]
          (MNEMONIC_KEY "w1") = some (StoredVal.str "!!bad!!") from rfl] at hs
      cases hs
      exact Or.inr ⟨DecryptError.decodeError, rfl⟩)

/-- C5: the `hasMnemonic` flag is monotone under `addWalletToList`: when
the record for `f` has the flag set, re-registering with
`hasMnemonic = false` keeps it set (the source only assigns the flag
inside `if (hasMnemonic)`). -/
theorem addWalletToList_found (st : Storage) (f net : String) (hm : Bool)
    (t1 t2 : String)
    (hfound : ((getStoredWallets st).find? (fun w => w.filename == f)).isSome) :
    getStoredWallets (addWalletToList st f net hm t1 t2)
      = updateFirst (getStoredWallets st) f (fun (w : WalletRecord) =>
          { w with
            network := net
            lastUsed := t1
            hasMnemonic := if hm then true else w.hasMnemonic }) := by
  simp only [addWalletToList, hfound, if_true, getStoredWallets_setItem_reg]

theorem addWalletToList_not_found (st : Storage) (f net : String) (hm : Bool)
    (t1 t2 : String)
    (hnone : (getStoredWallets st).find? (fun w => w.filename == f) = none) :
    getStoredWallets (addWalletToList st f net hm t1 t2)
      = getStoredWallets st ++
        [{ filename := f
           network := net
           createdAt := t1
           lastUsed := t2
           hasMnemonic := hm }] := by
  simp only [addWalletToList, hnone, Option.isSome_none, Bool.false_eq_true,
    if_false, getStoredWallets_setItem_reg]

theorem C5_hasMnemonic_monotone (st : Storage) (f net t1 t2 : String)
    (w : WalletRecord)
    (hfound : (getStoredWallets st).find? (fun r => r.filename == f) = some w)
    (hflag : w.hasMnemonic = true) :
    ∃ r, (getStoredWallets (addWalletToList st f net false t1 t2)).find?
        (fun r => r.filename == f) = some r ∧ r.hasMnemonic = true := by
  have hup := updateFirst_find (getStoredWallets st) f
    (fun (w : WalletRecord) =>
      { w with
        network := net
        lastUsed := t1
        hasMnemonic := if false then true else w.hasMnemonic })
    (fun _ => rfl)
  rw [addWalletToList_found st f net false t1 t2 (by simp [hfound]),
    hup, hfound]
  exact ⟨_, rfl, by simp [hflag]⟩

def sampleStoreC5 : Storage :=
  [(WALLET_LIST_KEY, StoredVal.reg
    [{ filename := "w1"
       network := "mainnet"
       createdAt := "2024-01-01T00:00:00.000Z"
       lastUsed := "2024-01-01T00:00:00.000Z"
       hasMnemonic := true }])]

/-- Witness for C5 on a concrete one-record registry. -/
theorem C5_hasMnemonic_monotone_witness :
    ∃ r, (getStoredWallets (addWalletToList sampleStoreC5 "w1" "testnet-10"
        false "t1" "t2")).find? (fun r => r.filename == "w1") = some r
      ∧ r.hasMnemonic = true :=
  C5_hasMnemonic_monotone sampleStoreC5 "w1" "testnet-10" "t1" "t2"
    { filename := "w1"
      network := "mainnet"
      createdAt := "2024-01-01T00:00:00.000Z"
      lastUsed := "2024-01-01T00:00:00.000Z"
      hasMnemonic := true }
    (by decide) rfl

/-- `removeWalletFromList` written out: filter the registry, write it
back, remove the blob (definitional unfolding). -/
theorem removeWalletFromList_eq (st : Storage) (f : String) :
    removeWalletFromList st f
      = removeItem (setItem st WALLET_LIST_KEY (StoredVal.reg
          ((getStoredWallets st).filter (fun w => w.filename != f))))
          (MNEMONIC_KEY f) := rfl

theorem getStoredWallets_removeWallet (st : Storage) (f : String) :
    getStoredWallets (removeWalletFromList st f)
      = (getStoredWallets st).filter (fun w => w.filename != f) := by
  rw [removeWalletFromList_eq, getStoredWallets_removeItem_blob,
    getStoredWallets_setItem_reg]

/-- C6: `removeWallet` is idempotent on the whole store; removing a
filename with no registry record leaves the registry records unchanged;
and afterwards neither a registry record for `f` nor the blob under the
mnemonic key for `f` is present. As a total function it cannot fail. -/
theorem C6_removeWallet_idempotent (st : Storage) (f : String) :
    removeWalletFromList (removeWalletFromList st f) f = removeWalletFromList st f
    ∧ ((getStoredWallets st).find? (fun w => w.filename == f) = none →
        getStoredWallets (removeWalletFromList st f) = getStoredWallets st)
    ∧ (getStoredWallets (removeWalletFromList st f)).find?
        (fun w => w.filename == f) = none
    ∧ getItem (removeWalletFromList st f) (MNEMONIC_KEY f) = none := by
  have hKB := wallet_key_ne_mnemonic_key f
  refine ⟨?_, ?_, ?_, ?_⟩
  · have hfilter : ((getStoredWallets st).filter (fun w => w.filename != f)).filter
        (fun w => w.filename != f)
        = (getStoredWallets st).filter (fun w => w.filename != f) :=
      List.filter_eq_self.mpr (fun a ha => (List.mem_filter.1 ha).2)
    have hget : getItem (removeWalletFromList st f) WALLET_LIST_KEY
        = some (StoredVal.reg ((getStoredWallets st).filter
            (fun w => w.filename != f))) := by
      rw [removeWalletFromList_eq, getItem_removeItem_ne _ _ _ hKB,
        getItem_setItem_self]
    calc removeWalletFromList (removeWalletFromList st f) f
        = removeItem (setItem (removeWalletFromList st f) WALLET_LIST_KEY
            (StoredVal.reg (((getStoredWallets st).filter
              (fun w => w.filename != f)).filter (fun w => w.filename != f))))
            (MNEMONIC_KEY f) := by
          rw [removeWalletFromList_eq (removeWalletFromList st f) f,
            getStoredWallets_removeWallet]
      _ = removeItem (removeWalletFromList st f) (MNEMONIC_KEY f) := by
          rw [hfilter, setItem_of_getItem _ _ _ hget]
      _ = removeWalletFromList st f := by
          rw [removeWalletFromList_eq st f, removeItem_idem]
  · intro hnone
    rw [getStoredWallets_removeWallet]
    apply List.filter_eq_self.mpr
    intro a ha
    have h1 := List.find?_eq_none.1 hnone a ha
    have h2 : a.filename ≠ f := by simpa using h1
    simpa using h2
  · rw [getStoredWallets_removeWallet]
    apply List.find?_eq_none.2
    intro x hx
    have h1 := (List.mem_filter.1 hx).2
    have h2 : x.filename ≠ f := by simpa using h1
    simpa using h2
  · rw [removeWalletFromList_eq, getItem_removeItem_self]

def sampleStoreC6 : Storage :=
  [(WALLET_LIST_KEY, StoredVal.reg
    [{ filename := "w1"
       network := "mainnet"
       createdAt := "c"
       lastUsed := "l"
       hasMnemonic := false }]),
   (MNEMONIC_KEY "w1", StoredVal.str "blob")]

/-- Witness for C6: removing a filename that has no registry record on a
concrete store, twice. -/
theorem C6_removeWallet_idempotent_witness :
    removeWalletFromList (removeWalletFromList sampleStoreC6 "w2") "w2"
        = removeWalletFromList sampleStoreC6 "w2"
    ∧ getStoredWallets (removeWalletFromList sampleStoreC6 "w2")
        = getStoredWallets sampleStoreC6
    ∧ (getStoredWallets (removeWalletFromList sampleStoreC6 "w2")).find?
        (fun w => w.filename == "w2") = none
    ∧ getItem (removeWalletFromList sampleStoreC6 "w2") (MNEMONIC_KEY "w2") = none :=
  ⟨(C6_removeWallet_idempotent sampleStoreC6 "w2").1,
   (C6_removeWallet_idempotent sampleStoreC6 "w2").2.1 (by decide),
   (C6_removeWallet_idempotent sampleStoreC6 "w2").2.2.1,
   (C6_removeWallet_idempotent sampleStoreC6 "w2").2.2.2⟩

/-- C7: `storeMnemonic` persists the encrypted blob under the mnemonic
key for `f`; afterwards the registry holds a record for `f` with
`hasMnemonic = true` exactly when a record for `f` existed before the
call; the registry never gains a record, and when no record matched the
registry value is not even rewritten. -/
theorem C7_storeMnemonic_blob_and_flag (P : CryptoPrims) (st : Storage)
    (f m password : String) (salt iv : List Nat) :
    getItem (storeMnemonic P st f m password salt iv) (MNEMONIC_KEY f)
        = some (StoredVal.str (encrypt P m password salt iv))
    ∧ ((∃ w, (getStoredWallets st).find? (fun r => r.filename == f) = some w)
        ↔ (∃ r, (getStoredWallets (storeMnemonic P st f m password salt iv)).find?
            (fun r => r.filename == f) = some r ∧ r.hasMnemonic = true))
    ∧ (getStoredWallets (storeMnemonic P st f m password salt iv)).length
        = (getStoredWallets st).length
    ∧ ((getStoredWallets st).find? (fun r => r.filename == f) = none →
        getItem (storeMnemonic P st f m password salt iv) WALLET_LIST_KEY
          = getItem st WALLET_LIST_KEY) := by
  have hKB := wallet_key_ne_mnemonic_key f
  have hw1 : getStoredWallets (setItem st (MNEMONIC_KEY f)
      (StoredVal.str (encrypt P m password salt iv))) = getStoredWallets st :=
    getStoredWallets_setItem_blob st f _
  cases hfind : (getStoredWallets st).find? (fun r => r.filename == f) with
  | some w =>
      have hup := updateFirst_find (getStoredWallets st) f
        (fun (w : WalletRecord) => { w with hasMnemonic := true }) (fun _ => rfl)
      have heq : storeMnemonic P st f m password salt iv
          = setItem (setItem st (MNEMONIC_KEY f)
              (StoredVal.str (encrypt P m password salt iv)))
            WALLET_LIST_KEY (StoredVal.reg (updateFirst (getStoredWallets st) f
              (fun (w : WalletRecord) => { w with hasMnemonic := true }))) := by
        simp only [storeMnemonic, hw1, hfind, Option.isSome_some, if_true]
      rw [heq]
      refine ⟨?_, ?_, ?_, ?_⟩
      · rw [getItem_setItem_ne _ _ _ _ (Ne.symm hKB), getItem_setItem_self]
      · constructor
        · intro _
          rw [getStoredWallets_setItem_reg, hup, hfind]
          exact ⟨_, rfl, rfl⟩
        · intro _
          exact ⟨w, rfl⟩
      · rw [getStoredWallets_setItem_reg, updateFirst_length]
      · intro hnone
        exact Option.noConfusion hnone
  | none =>
      have heq : storeMnemonic P st f m password salt iv
          = setItem st (MNEMONIC_KEY f)
              (StoredVal.str (encrypt P m password salt iv)) := by
        simp only [storeMnemonic, hw1, hfind, Option.isSome_none,
          Bool.false_eq_true, if_false]
      rw [heq]
      refine ⟨getItem_setItem_self _ _ _, ?_, by rw [hw1], fun _ => ?_⟩
      · constructor
        · rintro ⟨w, hw⟩
          exact Option.noConfusion hw
        · rintro ⟨r, hr, _⟩
          rw [hw1, hfind] at hr
          exact Option.noConfusion hr
      · exact getItem_setItem_ne _ _ _ _ hKB

def sampleStoreC7 : Storage :=
  [(WALLET_LIST_KEY, StoredVal.reg
    [{ filename := "w1"
       network := "mainnet"
       createdAt := "c"
       lastUsed := "l"
       hasMnemonic := false }])]

/-- Witness for C7: storing a mnemonic for the registered wallet `w1`
persists the blob and flips the flag; the registry length is unchanged. -/
theorem C7_storeMnemonic_blob_and_flag_witness :
    getItem (storeMnemonic concretePrims sampleStoreC7 "w1" "words" "pw"
        (List.replicate 16 5) (List.replicate 12 6)) (MNEMONIC_KEY "w1")
      = some (StoredVal.str (encrypt concretePrims "words" "pw"
          (List.replicate 16 5) (List.replicate 12 6)))
    ∧ (getStoredWallets (storeMnemonic concretePrims sampleStoreC7 "w1" "words" "pw"
        (List.replicate 16 5) (List.replicate 12 6))).length
      = (getStoredWallets sampleStoreC7).length :=
  ⟨(C7_storeMnemonic_blob_and_flag concretePrims sampleStoreC7 "w1" "words" "pw"
      (List.replicate 16 5) (List.replicate 12 6)).1,
   (C7_storeMnemonic_blob_and_flag concretePrims sampleStoreC7 "w1" "words" "pw"
      (List.replicate 16 5) (List.replicate 12 6)).2.2.1⟩

/-- C8: `getStoredWallets` is total (it cannot fail); an absent registry
key or a stored value on which `JSON.parse` throws yields the empty
list, and a parseable registry yields exactly the stored records in
their stored (insertion) order. -/
theorem C8_listWallets_never_fails (st : Storage) :
    (getItem st WALLET_LIST_KEY = none → getStoredWallets st = [])
    ∧ (∀ s, getItem st WALLET_LIST_KEY = some (StoredVal.str s) →
        getStoredWallets st = [])
    ∧ (∀ ws, getItem st WALLET_LIST_KEY = some (StoredVal.reg ws) →
        getStoredWallets st = ws) :=
  ⟨fun h => by simp [getStoredWallets, h],
   fun s h => by simp [getStoredWallets, h],
   fun ws h => by simp [getStoredWallets, h]⟩

/-- Witness for C8: a corrupt (unparseable) registry value and a missing
registry key both give the empty list. -/
theorem C8_listWallets_never_fails_witness :
    getStoredWallets [(WALLET_LIST_KEY, StoredVal.str "oops")] = []
    ∧ getStoredWallets ([] : Storage) = [] :=
  ⟨(C8_listWallets_never_fails [(WALLET_LIST_KEY, StoredVal.str "oops")]).2.1
      "oops" rfl,
   (C8_listWallets_never_fails ([] : Storage)).1 rfl⟩

/-- C9 as stated is false on the code: the insert branch evaluates
`new Date().toISOString()` twice — once for `createdAt` and once for
`lastUsed` — and the clock can tick between the two calls. Inserting
into an empty registry while the two reads return timestamps one
millisecond apart yields a record whose `createdAt` and `lastUsed`
differ. -/
theorem C9_counterexample_clock_ticks :
    ∃ r, (getStoredWallets (addWalletToList ([] : Storage) "w1" "mainnet" false
        "2024-01-01T00:00:00.000Z" "2024-01-01T00:00:00.001Z")).find?
        (fun w => w.filename == "w1") = some r
      ∧ r.createdAt ≠ r.lastUsed :=
  ⟨{ filename := "w1"
     network := "mainnet"
     createdAt := "2024-01-01T00:00:00.000Z"
     lastUsed := "2024-01-01T00:00:00.001Z"
     hasMnemonic := false },
   rfl, by decide⟩

/-- C9 amended: when no record for `f` exists, `addWalletToList`
appends exactly one record, with `createdAt` set from the first
`new Date()` read and `lastUsed` from the second; the two fields are
equal whenever the clock does not advance between the two consecutive
reads (in particular, substituting equal reads gives
`createdAt = lastUsed`). -/
theorem C9_insert_appends_record (st : Storage) (f net : String) (hm : Bool)
    (t1 t2 : String)
    (hnone : (getStoredWallets st).find? (fun w => w.filename == f) = none) :
    getStoredWallets (addWalletToList st f net hm t1 t2)
      = getStoredWallets st ++
        [{ filename := f
           network := net
           createdAt := t1
           lastUsed := t2
           hasMnemonic := hm }] :=
  addWalletToList_not_found st f net hm t1 t2 hnone

/-- Witness for the amended C9: a fresh insert with coinciding clock
reads has `createdAt = lastUsed = now`. -/
theorem C9_insert_appends_record_witness :
    getStoredWallets (addWalletToList ([] : Storage) "w1" "mainnet" false
        "2024-01-01T00:00:00.000Z" "2024-01-01T00:00:00.000Z")
      = [{ filename := "w1"
           network := "mainnet"
           createdAt := "2024-01-01T00:00:00.000Z"
           lastUsed := "2024-01-01T00:00:00.000Z"
           hasMnemonic := false }] := by
  have h := C9_insert_appends_record ([] : Storage) "w1" "mainnet" false
    "2024-01-01T00:00:00.000Z" "2024-01-01T00:00:00.000Z" (by decide)
  simpa using h

/-- C10: re-registering an existing filename touches only the first
matching record: the registry keeps its length and order, every other
position is unchanged, and the matched position is exactly the old
record with `network` and `lastUsed` replaced and `hasMnemonic`
possibly upgraded — in particular its `createdAt` and `filename` are
untouched. -/
theorem C10_update_frame (st : Storage) (f net : String) (hm : Bool)
    (t1 t2 : String)
    (hfound : ((getStoredWallets st).find? (fun w => w.filename == f)).isSome) :
    (getStoredWallets (addWalletToList st f net hm t1 t2)).length
        = (getStoredWallets st).length
    ∧ (∀ j, j ≠ (getStoredWallets st).findIdx (fun w => w.filename == f) →
        (getStoredWallets (addWalletToList st f net hm t1 t2)).get? j
          = (getStoredWallets st).get? j)
    ∧ (getStoredWallets (addWalletToList st f net hm t1 t2)).get?
          ((getStoredWallets st).findIdx (fun w => w.filename == f))
        = ((getStoredWallets st).get?
            ((getStoredWallets st).findIdx (fun w => w.filename == f))).map
          (fun (w : WalletRecord) =>
            { w with
              network := net
              lastUsed := t1
              hasMnemonic := if hm then true else w.hasMnemonic }) := by
  rw [addWalletToList_found st f net hm t1 t2 hfound]
  exact ⟨updateFirst_length _ _ _,
    fun j hj => updateFirst_get_ne _ _ _ j hj,
    updateFirst_get_idx _ _ _⟩

def sampleStoreC10 : Storage :=
  [(WALLET_LIST_KEY, StoredVal.reg
    [{ filename := "w1"
       network := "mainnet"
       createdAt := "c1"
       lastUsed := "l1"
       hasMnemonic := true },
     { filename := "w2"
       network := "mainnet"
       createdAt := "c2"
       lastUsed := "l2"
       hasMnemonic := false }])]

/-- Witness for C10: updating `w2` leaves position 0 (the record `w1`)
untouched and rewrites only position 1. -/
theorem C10_update_frame_witness :
    (getStoredWallets (addWalletToList sampleStoreC10 "w2" "testnet-10" false
        "T" "T")).get? 0 = (getStoredWallets sampleStoreC10).get? 0
    ∧ (getStoredWallets (addWalletToList sampleStoreC10 "w2" "testnet-10" false
        "T" "T")).length = (getStoredWallets sampleStoreC10).length :=
  ⟨(C10_update_frame sampleStoreC10 "w2" "testnet-10" false "T" "T"
      (by decide)).2.1 0 (by decide),
   (C10_update_frame sampleStoreC10 "w2" "testnet-10" false "T" "T"
      (by decide)).1⟩
